import Mathlib

/-!
A shallow embedding of the HTTP message model, connection handler and proxy
forwarder of `src/shoddyhttp.py` and `src/shoddyproxy.py`, together with
proofs settling the specification claims about them.

Raw message text is modelled as `List Char`; Python's `str.split` family is
modelled by the explicit recursive functions `splitOnce` (split at the first
occurrence of a separator, i.e. `split(sep, maxsplit=1)` with a mandatory
separator) and `splitAll` (full `split(sep)`).
-/

set_option maxRecDepth 10000

abbrev Str := List Char

abbrev Headers := List (Str × Str)

abbrev crlf : Str := ['\r', '\n']

abbrev crlf2 : Str := ['\r', '\n', '\r', '\n']

abbrev spc : Str := [' ']

abbrev colonSp : Str := [':', ' ']

def clKey : Str := "Content-Length".toList

/-- `stripLead sep s` removes the leading occurrence of `sep` from `s`,
returning the remainder, or `none` when `s` does not start with `sep`. -/
def stripLead : Str → Str → Option Str
  | [], s => some s
  | _ :: _, [] => none
  | p :: ps, c :: cs => if c = p then stripLead ps cs else none

/-- Split `s` at the first occurrence of `sep`, as in Python
`a, b = s.split(sep, maxsplit=1)`: `none` models the `ValueError` raised when
the separator is absent (or empty). -/
def splitOnce : Str → Str → Option (Str × Str)
  | [], _ => none
  | _ :: _, [] => none
  | p :: ps, c :: cs =>
    match stripLead (p :: ps) (c :: cs) with
    | some rest => some ([], rest)
    | none =>
      match splitOnce (p :: ps) cs with
      | some (a, b) => some (c :: a, b)
      | none => none

/-- Fuelled worker for `splitAll`. -/
def splitAllGo (sep : Str) : Nat → Str → List Str
  | 0, s => [s]
  | fuel + 1, s =>
    match splitOnce sep s with
    | none => [s]
    | some (a, b) => a :: splitAllGo sep fuel b

/-- Full split on every occurrence of `sep`, as in Python `s.split(sep)`
(for a non-empty separator). -/
def splitAll (sep s : Str) : List Str :=
  splitAllGo sep s.length s

/-- `true` when `sep` occurs as a contiguous subsequence of `s`. -/
def containsB (sep : Str) : Str → Bool
  | [] => decide (sep = [])
  | c :: cs => (stripLead sep (c :: cs)).isSome || containsB sep cs

/-- Propositional form of substring containment. -/
def ContainsSeq (sep s : Str) : Prop := containsB sep s = true

instance (sep s : Str) : Decidable (ContainsSeq sep s) := by
  unfold ContainsSeq; infer_instance

/-- Python `sep.join(parts)`. -/
def joinSep (sep : Str) : List Str → Str
  | [] => []
  | [x] => x
  | x :: y :: rest => x ++ sep ++ joinSep sep (y :: rest)

/-- Decimal rendering of a natural number, as produced by Python f-strings on
the `int` values this system formats (status codes and `len` results). -/
def natToStr (n : Nat) : Str := (Nat.repr n).toList

/-- Models Python `int(s)` on the nonnegative decimal numerals that occur in
HTTP status lines; `none` models the `ValueError` on other inputs. -/
def parseNat (s : Str) : Option Nat :=
  if !s.isEmpty && s.all Char.isDigit then
    some (s.foldl (fun n c => 10 * n + (c.toNat - '0'.toNat)) 0)
  else
    none

/-- `HttpMethod` from `src/shoddyhttp.py`. -/
inductive HttpMethod where
  | GET
  | PUT
  | HEAD
  | POST
  | DELETE
  | UNSUPPORTED
deriving DecidableEq, BEq, Fintype

/-- The `.value` string of each `HttpMethod` member. -/
def methodStr : HttpMethod → Str
  | .GET => "GET".toList
  | .PUT => "PUT".toList
  | .HEAD => "HEAD".toList
  | .POST => "POST".toList
  | .DELETE => "DELETE".toList
  | .UNSUPPORTED => "UNSUPPORTED".toList

/-- The member-lookup-with-fallback used by `http_request_from_raw`: an
unrecognised token degrades to `UNSUPPORTED`. -/
def methodFromStr (s : Str) : HttpMethod :=
  if s = "GET".toList then .GET
  else if s = "PUT".toList then .PUT
  else if s = "HEAD".toList then .HEAD
  else if s = "POST".toList then .POST
  else if s = "DELETE".toList then .DELETE
  else .UNSUPPORTED

/-- `HttpVersion` from `src/shoddyhttp.py`. -/
inductive HttpVersion where
  | HTTP_1_1
  | UNSUPPORTED
deriving DecidableEq, BEq, Fintype

/-- The `.value` string of each `HttpVersion` member. -/
def versionStr : HttpVersion → Str
  | .HTTP_1_1 => "HTTP/1.1".toList
  | .UNSUPPORTED => "UNSUPPORTED".toList

/-- Version lookup with `UNSUPPORTED` fallback, as in both decoders. -/
def versionFromStr (s : Str) : HttpVersion :=
  if s = "HTTP/1.1".toList then .HTTP_1_1 else .UNSUPPORTED

/-- `HttpStatusCode` from `src/shoddyhttp.py` (note `BAD_REQUEST = 300` in
the source). -/
inductive HttpStatusCode where
  | OK
  | NOT_MODIFIED
  | BAD_REQUEST
  | NOT_FOUND
  | METHOD_NOT_ALLOWED
  | REQUEST_TIMED_OUT
deriving DecidableEq, BEq, Fintype

/-- The numeric `.value` of each `HttpStatusCode` member. -/
def HttpStatusCode.val : HttpStatusCode → Nat
  | .OK => 200
  | .NOT_MODIFIED => 304
  | .BAD_REQUEST => 300
  | .NOT_FOUND => 404
  | .METHOD_NOT_ALLOWED => 405
  | .REQUEST_TIMED_OUT => 408

/-- `HttpStatusCode(int(...))` member lookup: `none` models the `ValueError`
on an unknown code. -/
def statusFromNat (n : Nat) : Option HttpStatusCode :=
  if n = 200 then some .OK
  else if n = 304 then some .NOT_MODIFIED
  else if n = 300 then some .BAD_REQUEST
  else if n = 404 then some .NOT_FOUND
  else if n = 405 then some .METHOD_NOT_ALLOWED
  else if n = 408 then some .REQUEST_TIMED_OUT
  else none

/-- `HttpStatusMessage` from `src/shoddyhttp.py`. -/
inductive HttpStatusMessage where
  | OK
  | NOT_MODIFIED
  | BAD_REQUEST
  | NOT_FOUND
  | METHOD_NOT_ALLOWED
  | REQUEST_TIMED_OUT
deriving DecidableEq, BEq, Fintype

/-- The `.value` reason phrase of each `HttpStatusMessage` member. -/
def HttpStatusMessage.value : HttpStatusMessage → Str
  | .OK => "OK".toList
  | .NOT_MODIFIED => "Not Modified".toList
  | .BAD_REQUEST => "Bad Request".toList
  | .NOT_FOUND => "Not Found".toList
  | .METHOD_NOT_ALLOWED => "Method Not Allowed".toList
  | .REQUEST_TIMED_OUT => "Request Timed Out".toList

/-- The name-indexed lookup `HttpStatusMessage[status.name]` used when a
response is serialised. -/
def msgOfCode : HttpStatusCode → HttpStatusMessage
  | .OK => .OK
  | .NOT_MODIFIED => .NOT_MODIFIED
  | .BAD_REQUEST => .BAD_REQUEST
  | .NOT_FOUND => .NOT_FOUND
  | .METHOD_NOT_ALLOWED => .METHOD_NOT_ALLOWED
  | .REQUEST_TIMED_OUT => .REQUEST_TIMED_OUT

/-- The reason phrase written on a status line for a given status code. -/
def reasonOf (c : HttpStatusCode) : Str := (msgOfCode c).value

/-- `HttpRequest` from `src/shoddyhttp.py`.  `headers = None` and
`headers = {}` are both modelled by the empty list. -/
structure HttpRequest where
  method : HttpMethod
  url : Str
  version : HttpVersion
  headers : Headers
  body : Str
deriving DecidableEq, BEq

/-- `HttpResponse` from `src/shoddyhttp.py`. -/
structure HttpResponse where
  version : HttpVersion
  status : HttpStatusCode
  headers : Headers
  data : Str
deriving DecidableEq, BEq

/-- One rendered header line `f"{key}: {value}"`. -/
def renderHeader (kv : Str × Str) : Str := kv.1 ++ colonSp ++ kv.2

/-- `__build_headers` shared by `HttpRequest` and `HttpResponse`: the empty
string when there are no headers, otherwise the `"\r\n"`-joined lines
followed by one `"\r\n"`. -/
def buildHeaders : Headers → Str
  | [] => []
  | h :: t => joinSep crlf ((h :: t).map renderHeader) ++ crlf

/-- `HttpRequest.to_raw`. -/
def HttpRequest.to_raw (r : HttpRequest) : Str :=
  methodStr r.method ++ spc ++ r.url ++ spc ++ versionStr r.version ++ crlf
    ++ buildHeaders r.headers ++ crlf ++ r.body

/-- `HttpResponse.to_raw`. -/
def HttpResponse.to_raw (r : HttpResponse) : Str :=
  versionStr r.version ++ spc ++ natToStr r.status.val ++ spc ++ reasonOf r.status ++ crlf
    ++ buildHeaders r.headers ++ crlf ++ r.data

/-- `key, value = line.split(": ")`: exactly one key/value pair, otherwise the
unpacking raises (`none`). -/
def parseHeaderLine (line : Str) : Option (Str × Str) :=
  match splitAll colonSp line with
  | [k, v] => some (k, v)
  | _ => none

/-- Python `dict` assignment `d[key] = value`: replace in place when the key
is present, append otherwise. -/
def dictInsert : Headers → Str → Str → Headers
  | [], k, v => [(k, v)]
  | (k', v') :: rest, k, v =>
    if k' = k then (k, v) :: rest else (k', v') :: dictInsert rest k v

/-- The header-parsing loop shared by both decoders, threading the `headers`
dictionary; `none` models the `ValueError` on a malformed line. -/
def parseHeaders : List Str → Headers → Option Headers
  | [], acc => some acc
  | line :: rest, acc =>
    match parseHeaderLine line with
    | none => none
    | some kv => parseHeaders rest (dictInsert acc kv.1 kv.2)

/-- `http_request_from_raw` from `src/shoddyhttp.py`; `none` models any
`ValueError` escaping the function. -/
def http_request_from_raw (raw_request : Str) : Option HttpRequest :=
  match splitOnce crlf2 raw_request with
  | none => none
  | some (top_section, body) =>
    match splitAll crlf top_section with
    | [] => none
    | line0 :: header_lines =>
      match splitAll spc line0 with
      | [method_str, url, version_str] =>
        match parseHeaders header_lines [] with
        | none => none
        | some headers =>
          some ⟨methodFromStr method_str, url, versionFromStr version_str, headers, body⟩
      | _ => none

/-- `http_response_from_raw` from `src/shoddyhttp.py`; `none` models any
`ValueError` escaping the function. -/
def http_response_from_raw (raw_response : Str) : Option HttpResponse :=
  match splitOnce crlf2 raw_response with
  | none => none
  | some (top_section, data) =>
    match splitAll crlf top_section with
    | [] => none
    | line0 :: header_lines =>
      match splitOnce spc line0 with
      | none => none
      | some (version_str, rest1) =>
        match splitOnce spc rest1 with
        | none => none
        | some (status_code_str, _reason) =>
          match parseHeaders header_lines [] with
          | none => none
          | some headers =>
            match parseNat status_code_str with
            | none => none
            | some n =>
              match statusFromNat n with
              | none => none
              | some status => some ⟨versionFromStr version_str, status, headers, data⟩

namespace HttpResponses

def timeoutBody : Str := "REQUEST TIMED OUT.".toList

/-- The canned `TIMEOUT` response. -/
def TIMEOUT : HttpResponse :=
  ⟨.HTTP_1_1, .REQUEST_TIMED_OUT, [(clKey, natToStr timeoutBody.length)], timeoutBody⟩

def notFoundBody : Str := "NOT FOUND.".toList

/-- The canned `NOT_FOUND` response. -/
def NOT_FOUND : HttpResponse :=
  ⟨.HTTP_1_1, .NOT_FOUND, [(clKey, natToStr notFoundBody.length)], notFoundBody⟩

def badRequestBody : Str := "BAD REQUEST.".toList

/-- The canned `BAD_REQUEST` response. -/
def BAD_REQUEST : HttpResponse :=
  ⟨.HTTP_1_1, .BAD_REQUEST, [(clKey, natToStr badRequestBody.length)], badRequestBody⟩

def successBody : Str := "SUCCESS.".toList

/-- The canned `OK` response. -/
def OK : HttpResponse :=
  ⟨.HTTP_1_1, .OK, [(clKey, natToStr successBody.length)], successBody⟩

def methodNotAllowedBody : Str := "METHOD NOT ALLOWED".toList

/-- The canned `METHOD_NOT_ALLOWED` response. -/
def METHOD_NOT_ALLOWED : HttpResponse :=
  ⟨.HTTP_1_1, .METHOD_NOT_ALLOWED, [(clKey, natToStr methodNotAllowedBody.length)],
    methodNotAllowedBody⟩

end HttpResponses

/-- The content store, viewed as the key-value byte store by path that
`ContentHandler` implements over the filesystem. -/
abbrev Store := List (Str × Str)

namespace Store

/-- `ContentHandler.retrieve`: the stored content, or `none` when absent. -/
def retrieve : Store → Str → Option Str
  | [], _ => none
  | (p, c) :: rest, path => if p = path then some c else retrieve rest path

/-- Overwrite the content at an existing path (the `unlink` + `write_text`
step of `ContentHandler.replace`). -/
def setContent : Store → Str → Str → Store
  | [], _, _ => []
  | (p, c) :: rest, path, content =>
    if p = path then (p, content) :: rest else (p, c) :: setContent rest path content

/-- Remove the entry at a path (the `unlink` step of `ContentHandler.delete`). -/
def removeContent : Store → Str → Store
  | [], _ => []
  | (p, c) :: rest, path => if p = path then rest else (p, c) :: removeContent rest path

/-- `ContentHandler.exists`. -/
def existsPath (st : Store) (path : Str) : Bool := (retrieve st path).isSome

/-- `ContentHandler.replace`: replace only when the path exists, reporting
success. -/
def replace (st : Store) (path content : Str) : Store × Bool :=
  if (retrieve st path).isSome then (setContent st path content, true) else (st, false)

/-- `ContentHandler.create`: create only when the path does not exist,
reporting success. -/
def create (st : Store) (path content : Str) : Store × Bool :=
  if (retrieve st path).isSome then (st, false) else (st ++ [(path, content)], true)

/-- `ContentHandler.delete`: remove when present, reporting success. -/
def delete (st : Store) (path : Str) : Store × Bool :=
  if (retrieve st path).isSome then (removeContent st path, true) else (st, false)

end Store

/-- `InvalidHttpMethodError`, raised by a dispatch branch whose expected
method does not match the request's method. -/
inductive HandlerErr where
  | invalidMethod (expected actual : HttpMethod)
deriving DecidableEq, BEq

/-- `RequestHandler._handle_get_request`: the response it sends and the store
it leaves behind, or the raised `InvalidHttpMethodError`. -/
def handleGetRequest (req : HttpRequest) (st : Store) : Except HandlerErr (HttpResponse × Store) :=
  if req.method ≠ HttpMethod.GET then .error (.invalidMethod .GET req.method)
  else
    match Store.retrieve st req.url with
    | some content => .ok (⟨.HTTP_1_1, .OK, [(clKey, natToStr content.length)], content⟩, st)
    | none => .ok (HttpResponses.NOT_FOUND, st)

/-- `RequestHandler._handle_put_request`. -/
def handlePutRequest (req : HttpRequest) (st : Store) : Except HandlerErr (HttpResponse × Store) :=
  if req.method ≠ HttpMethod.PUT then .error (.invalidMethod .PUT req.method)
  else
    match Store.replace st req.url req.body with
    | (st', true) => .ok (HttpResponses.OK, st')
    | (st', false) => .ok (HttpResponses.NOT_FOUND, st')

/-- `RequestHandler._handle_post_request`. -/
def handlePostRequest (req : HttpRequest) (st : Store) : Except HandlerErr (HttpResponse × Store) :=
  if req.method ≠ HttpMethod.POST then .error (.invalidMethod .POST req.method)
  else
    match Store.create st req.url req.body with
    | (st', true) => .ok (HttpResponses.OK, st')
    | (st', false) => .ok (HttpResponses.BAD_REQUEST, st')

/-- `RequestHandler._handle_head_request`. -/
def handleHeadRequest (req : HttpRequest) (st : Store) : Except HandlerErr (HttpResponse × Store) :=
  if req.method ≠ HttpMethod.HEAD then .error (.invalidMethod .HEAD req.method)
  else if Store.existsPath st req.url then .ok (⟨.HTTP_1_1, .OK, [], []⟩, st)
  else .ok (⟨.HTTP_1_1, .NOT_FOUND, [], []⟩, st)

/-- `RequestHandler._handle_delete_request`. -/
def handleDeleteRequest (req : HttpRequest) (st : Store) :
    Except HandlerErr (HttpResponse × Store) :=
  if req.method ≠ HttpMethod.DELETE then .error (.invalidMethod .DELETE req.method)
  else
    match Store.delete st req.url with
    | (st', true) => .ok (HttpResponses.OK, st')
    | (st', false) => .ok (HttpResponses.NOT_FOUND, st')

/-- `RequestHandler._handle_request`: the method-keyed dispatch switch. -/
def handleRequest (req : HttpRequest) (st : Store) : Except HandlerErr (HttpResponse × Store) :=
  match req.method with
  | .GET => handleGetRequest req st
  | .PUT => handlePutRequest req st
  | .POST => handlePostRequest req st
  | .HEAD => handleHeadRequest req st
  | .DELETE => handleDeleteRequest req st
  | .UNSUPPORTED => .ok (HttpResponses.METHOD_NOT_ALLOWED, st)

/-- Observable connection-level actions of one `RequestHandler.handle` run. -/
inductive HEvent where
  | sent (raw : Str)
  | closed
deriving DecidableEq, BEq

/-- Exceptions that can escape `RequestHandler.handle`. -/
inductive HFailure where
  | decodeError
  | dispatchError (e : HandlerErr)
deriving DecidableEq, BEq

/-- `RequestHandler.handle` over one connection.  The input is `none` when
`select` times out with no readable data, and `some raw` for the received
text.  The result lists the socket events in order, the store afterwards, and
the exception that escaped the handler, if any; an escaping exception skips
the trailing `connection.close()`. -/
def handleRun (input : Option Str) (st : Store) : List HEvent × Store × Option HFailure :=
  match input with
  | none => ([.sent HttpResponses.TIMEOUT.to_raw, .closed], st, none)
  | some raw =>
    match http_request_from_raw raw with
    | none => ([], st, some .decodeError)
    | some req =>
      match handleRequest req st with
      | .error e => ([], st, some (.dispatchError e))
      | .ok (resp, st') => ([.sent resp.to_raw, .closed], st', none)

/-- `ProxyRequestHandler.__forward`, request leg: the bytes written to the
upstream connection, computed from the client's raw request text. -/
def proxyForward (clientRaw : Str) : Option Str :=
  (http_request_from_raw clientRaw).map HttpRequest.to_raw

/-- `ProxyRequestHandler._handle_request`, response leg: the bytes relayed to
the client, computed from the upstream's raw response text. -/
def proxyRelay (upstreamRaw : Str) : Option Str :=
  (http_response_from_raw upstreamRaw).map HttpResponse.to_raw

/-- Well-formedness of a URL for lossless encoding: no space (the request
line is space-separated) and no carriage return (lines are CRLF-separated). -/
def urlOk (u : Str) : Prop := ' ' ∉ u ∧ '\r' ∉ u

instance (u : Str) : Decidable (urlOk u) := by
  unfold urlOk; infer_instance

/-- Well-formedness of one header pair for lossless encoding: the key has no
colon and no carriage return, the value has no carriage return and does not
contain `": "`. -/
def headerOk (kv : Str × Str) : Prop :=
  ':' ∉ kv.1 ∧ '\r' ∉ kv.1 ∧ '\r' ∉ kv.2 ∧ ¬ ContainsSeq colonSp kv.2

instance (kv : Str × Str) : Decidable (headerOk kv) := by
  unfold headerOk; infer_instance

/-- The request line `f"{method} {url} {version}"` (without its CRLF). -/
def reqLine (r : HttpRequest) : Str :=
  methodStr r.method ++ spc ++ r.url ++ spc ++ versionStr r.version

/-- The status line `f"{version} {code} {reason}"` (without its CRLF). -/
def statusLine (r : HttpResponse) : Str :=
  versionStr r.version ++ spc ++ natToStr r.status.val ++ spc ++ reasonOf r.status

/-- Whether an `Except` computation finished without raising. -/
def exceptOk {ε α : Type} : Except ε α → Bool
  | .ok _ => true
  | .error _ => false

instance {ε α : Type} [DecidableEq ε] [DecidableEq α] : DecidableEq (Except ε α)
  | .error a, .error b =>
    if h : a = b then isTrue (by rw [h]) else isFalse (by simp [h])
  | .error _, .ok _ => isFalse (by simp)
  | .ok _, .error _ => isFalse (by simp)
  | .ok a, .ok b =>
    if h : a = b then isTrue (by rw [h]) else isFalse (by simp [h])

/-! ### Basic facts about `stripLead`, `splitOnce`, `splitAll` and `containsB` -/

theorem stripLead_self (sep s : Str) : stripLead sep (sep ++ s) = some s := by
  induction sep with
  | nil => rfl
  | cons p ps ih => simp [stripLead, ih]

theorem stripLead_eq_some {sep s r : Str} : stripLead sep s = some r ↔ s = sep ++ r := by
  induction sep generalizing s with
  | nil => simp [stripLead]
  | cons p ps ih =>
    cases s with
    | nil => simp [stripLead]
    | cons c cs =>
      by_cases h : c = p
      · subst h; simp [stripLead, ih]
      · simp [stripLead, h, Ne.symm h]

theorem splitOnce_nil (sep : Str) : splitOnce sep [] = none := by
  cases sep <;> rfl

theorem splitOnce_lt {sep s : Str} {p : Str × Str} (h : splitOnce sep s = some p) :
    p.2.length < s.length := by
  induction s generalizing p with
  | nil => simp [splitOnce_nil] at h
  | cons c cs ih =>
    cases sep with
    | nil => simp [splitOnce] at h
    | cons q qs =>
      rw [splitOnce] at h
      cases hs : stripLead (q :: qs) (c :: cs) with
      | some rest =>
        rw [hs] at h
        cases h
        have hl := congrArg List.length (stripLead_eq_some.mp hs)
        simp at hl
        simp
        omega
      | none =>
        rw [hs] at h
        cases hi : splitOnce (q :: qs) cs with
        | none => rw [hi] at h; cases h
        | some pr =>
          obtain ⟨a, b⟩ := pr
          rw [hi] at h
          cases h
          have := ih hi
          simp at this ⊢
          omega

theorem splitAllGo_congr {sep : Str} :
    ∀ {f g : Nat} {s : Str}, s.length ≤ f → s.length ≤ g →
      splitAllGo sep f s = splitAllGo sep g s := by
  intro f
  induction f with
  | zero =>
    intro g s hf hg
    have hz : s = [] := List.length_eq_zero.mp (Nat.le_zero.mp hf)
    subst hz
    cases g with
    | zero => rfl
    | succ g' => simp [splitAllGo, splitOnce_nil]
  | succ f' ih =>
    intro g s hf hg
    cases g with
    | zero =>
      have hz : s = [] := List.length_eq_zero.mp (Nat.le_zero.mp hg)
      subst hz
      simp [splitAllGo, splitOnce_nil]
    | succ g' =>
      simp only [splitAllGo]
      cases h : splitOnce sep s with
      | none => rfl
      | some p =>
        obtain ⟨a, b⟩ := p
        have hb := splitOnce_lt h
        simp only at hb
        have hb1 : b.length ≤ f' := by omega
        have hb2 : b.length ≤ g' := by omega
        show a :: splitAllGo sep f' b = a :: splitAllGo sep g' b
        rw [ih hb1 hb2]

theorem splitAll_eq (sep s : Str) : splitAll sep s =
    match splitOnce sep s with
    | none => [s]
    | some (a, b) => a :: splitAll sep b := by
  cases s with
  | nil => simp [splitAll, splitAllGo, splitOnce_nil]
  | cons c cs =>
    show splitAllGo sep (cs.length + 1) (c :: cs) = _
    rw [splitAllGo]
    cases h : splitOnce sep (c :: cs) with
    | none => rfl
    | some p =>
      obtain ⟨a, b⟩ := p
      have hb := splitOnce_lt h
      simp only [List.length_cons] at hb
      show a :: splitAllGo sep cs.length b = a :: splitAll sep b
      rw [show splitAllGo sep cs.length b = splitAll sep b from
        splitAllGo_congr (by omega) (le_refl _)]

theorem splitAll_some {sep s a b : Str} (h : splitOnce sep s = some (a, b)) :
    splitAll sep s = a :: splitAll sep b := by
  rw [splitAll_eq, h]

theorem splitAll_none {sep s : Str} (h : splitOnce sep s = none) :
    splitAll sep s = [s] := by
  rw [splitAll_eq, h]

theorem splitAll_length_pos (sep s : Str) : 1 ≤ (splitAll sep s).length := by
  rw [splitAll_eq]
  cases h : splitOnce sep s with
  | none => simp
  | some p => obtain ⟨a, b⟩ := p; simp

theorem splitOnce_self_append (c : Char) (ps b : Str) :
    splitOnce (c :: ps) ((c :: ps) ++ b) = some ([], b) := by
  have h := stripLead_self (c :: ps) b
  simp only [List.cons_append] at h ⊢
  rw [splitOnce, h]

theorem splitOnce_append_left {c : Char} {ps x : Str} (hx : c ∉ x) (s : Str) :
    splitOnce (c :: ps) (x ++ s) = (splitOnce (c :: ps) s).map (fun p => (x ++ p.1, p.2)) := by
  induction x with
  | nil =>
    simp only [List.nil_append]
    cases splitOnce (c :: ps) s with
    | none => rfl
    | some p => simp
  | cons d x' ih =>
    have hd : d ≠ c := fun hh => hx (hh ▸ List.mem_cons_self d x')
    have hx' : c ∉ x' := fun hh => hx (List.mem_cons_of_mem d hh)
    simp only [List.cons_append]
    rw [splitOnce, show stripLead (c :: ps) (d :: (x' ++ s)) = none from by
      simp [stripLead, hd]]
    rw [ih hx']
    cases splitOnce (c :: ps) s with
    | none => rfl
    | some p => simp

theorem splitOnce_head_notMem {c : Char} {ps s : Str} (h : c ∉ s) :
    splitOnce (c :: ps) s = none := by
  induction s with
  | nil => rfl
  | cons d cs ih =>
    have hd : d ≠ c := fun hh => h (hh ▸ List.mem_cons_self d cs)
    have hcs : c ∉ cs := fun hh => h (List.mem_cons_of_mem d hh)
    rw [splitOnce, show stripLead (c :: ps) (d :: cs) = none from by
      simp [stripLead, hd]]
    rw [ih hcs]

theorem splitOnce_isSome_eq_containsB {c : Char} {ps : Str} (s : Str) :
    (splitOnce (c :: ps) s).isSome = containsB (c :: ps) s := by
  induction s with
  | nil => simp [splitOnce_nil, containsB]
  | cons d cs ih =>
    rw [splitOnce, containsB]
    cases h : stripLead (c :: ps) (d :: cs) with
    | some r => simp [h]
    | none =>
      rw [← ih]
      cases splitOnce (c :: ps) cs with
      | none => simp [h]
      | some p => simp [h]

theorem splitOnce_eq_none_iff {c : Char} {ps : Str} (s : Str) :
    splitOnce (c :: ps) s = none ↔ containsB (c :: ps) s = false := by
  rw [← splitOnce_isSome_eq_containsB]
  cases splitOnce (c :: ps) s with
  | none => simp
  | some p => simp

theorem containsB_append_right {sep t : Str} (h : containsB sep t = true) (x : Str) :
    containsB sep (x ++ t) = true := by
  induction x with
  | nil => simpa
  | cons d x' ih => simp [containsB, ih]

theorem containsB_iff_exists {sep s : Str} :
    containsB sep s = true ↔ ∃ a b, s = a ++ sep ++ b := by
  induction s with
  | nil =>
    constructor
    · intro h
      simp [containsB] at h
      exact ⟨[], [], by simp [h]⟩
    · rintro ⟨a, b, hab⟩
      have := hab.symm
      simp at this
      simp [containsB, this]
  | cons d cs ih =>
    simp only [containsB, Bool.or_eq_true, Option.isSome_iff_exists]
    constructor
    · rintro (⟨r, hr⟩ | h)
      · exact ⟨[], r, by simpa using stripLead_eq_some.mp hr⟩
      · obtain ⟨a, b, hab⟩ := ih.mp h
        exact ⟨d :: a, b, by simp [hab]⟩
    · rintro ⟨a, b, hab⟩
      cases a with
      | nil =>
        left
        exact ⟨b, stripLead_eq_some.mpr (by simpa using hab)⟩
      | cons a0 a' =>
        right
        apply ih.mpr
        refine ⟨a', b, ?_⟩
        simp only [List.cons_append, List.cons.injEq] at hab
        exact hab.2

/-! ### Splitting the head section produced by `to_raw` -/

theorem joinSep_cons (sep L : Str) (rest : List Str) :
    ∃ t, joinSep sep (L :: rest) = L ++ t := by
  cases rest with
  | nil => exact ⟨[], by simp [joinSep]⟩
  | cons L' rest' => exact ⟨sep ++ joinSep sep (L' :: rest'), by simp [joinSep]⟩

theorem splitAll_joinSep {lines : List Str} (h : ∀ L ∈ lines, '\r' ∉ L) (hne : lines ≠ []) :
    splitAll crlf (joinSep crlf lines) = lines := by
  induction lines with
  | nil => exact absurd rfl hne
  | cons L rest ih =>
    cases rest with
    | nil =>
      have hnone : splitOnce crlf L = none := splitOnce_head_notMem (h L (by simp))
      simp [joinSep, splitAll_none hnone]
    | cons L' rest' =>
      have hL : '\r' ∉ L := h L (by simp)
      have hstep : splitOnce crlf (L ++ (crlf ++ joinSep crlf (L' :: rest'))) =
          some (L, joinSep crlf (L' :: rest')) := by
        rw [splitOnce_append_left hL, splitOnce_self_append]
        simp
      have hj : joinSep crlf (L :: L' :: rest') = L ++ (crlf ++ joinSep crlf (L' :: rest')) := by
        simp [joinSep]
      rw [hj, splitAll_some hstep]
      rw [ih (fun x hx => h x (List.mem_cons_of_mem L hx)) (by simp)]

theorem splitOnce_cons_eq (p : Char) (ps : Str) (c : Char) (cs : Str) :
    splitOnce (p :: ps) (c :: cs) =
      match stripLead (p :: ps) (c :: cs) with
      | some rest => some ([], rest)
      | none =>
        match splitOnce (p :: ps) cs with
        | some (a, b) => some (c :: a, b)
        | none => none := rfl

theorem splitOnce_crlf2_crlf_cons {c : Char} (hc : c ≠ '\r') (t : Str) :
    splitOnce crlf2 (crlf ++ c :: t) =
      (splitOnce crlf2 (c :: t)).map (fun p => (crlf ++ p.1, p.2)) := by
  have h1 : stripLead crlf2 ('\r' :: '\n' :: c :: t) = none := by simp [stripLead, hc]
  have h2 : stripLead crlf2 ('\n' :: c :: t) = none := by simp [stripLead]
  show splitOnce crlf2 ('\r' :: '\n' :: c :: t) = _
  cases h : splitOnce crlf2 (c :: t) with
  | none =>
    rw [splitOnce_cons_eq, h1, splitOnce_cons_eq, h2, h]
    simp
  | some p =>
    obtain ⟨a, b⟩ := p
    rw [splitOnce_cons_eq, h1, splitOnce_cons_eq, h2, h]
    simp

theorem splitOnce_crlf2_head {lines : List Str} (body : Str) (hne : lines ≠ [])
    (h : ∀ L ∈ lines, L ≠ [] ∧ '\r' ∉ L) :
    splitOnce crlf2 (joinSep crlf lines ++ crlf2 ++ body) = some (joinSep crlf lines, body) := by
  induction lines with
  | nil => exact absurd rfl hne
  | cons L rest ih =>
    obtain ⟨hLne, hLcr⟩ := h L (by simp)
    cases rest with
    | nil =>
      show splitOnce crlf2 (L ++ crlf2 ++ body) = some (L, body)
      rw [List.append_assoc, splitOnce_append_left hLcr, splitOnce_self_append]
      simp
    | cons L' rest' =>
      obtain ⟨hL'ne, hL'cr⟩ := h L' (by simp)
      obtain ⟨t, ht⟩ := joinSep_cons crlf L' rest'
      obtain ⟨c0, L'', hL''⟩ : ∃ c0 t', L' = c0 :: t' := by
        cases L' with
        | nil => exact absurd rfl hL'ne
        | cons x xs => exact ⟨x, xs, rfl⟩
      have hc0 : c0 ≠ '\r' := by
        intro hh
        exact hL'cr (by rw [hL'', hh]; exact List.mem_cons_self _ _)
      have hinner := ih (by simp) (fun x hx => h x (List.mem_cons_of_mem L hx))
      have hj : joinSep crlf (L :: L' :: rest') ++ crlf2 ++ body =
          L ++ (crlf ++ (joinSep crlf (L' :: rest') ++ crlf2 ++ body)) := by
        simp [joinSep, List.append_assoc]
      rw [hj, splitOnce_append_left hLcr]
      have hshape : joinSep crlf (L' :: rest') ++ crlf2 ++ body =
          c0 :: (L'' ++ t ++ crlf2 ++ body) := by
        rw [ht, hL'']
        simp [List.append_assoc]
      rw [hshape, splitOnce_crlf2_crlf_cons hc0, ← hshape, hinner]
      simp [joinSep, List.append_assoc]

/-! ### Header line parsing -/

theorem parseHeaderLine_render {kv : Str × Str} (h : headerOk kv) :
    parseHeaderLine (renderHeader kv) = some kv := by
  obtain ⟨h1, _, _, h4⟩ := h
  have hsplit : splitOnce colonSp (kv.1 ++ (colonSp ++ kv.2)) = some (kv.1, kv.2) := by
    rw [splitOnce_append_left h1, splitOnce_self_append]
    simp
  have h2 : splitOnce colonSp kv.2 = none := by
    rw [splitOnce_eq_none_iff]
    unfold ContainsSeq at h4
    exact Bool.not_eq_true _ ▸ (by simpa using h4)
  unfold parseHeaderLine renderHeader
  rw [List.append_assoc, splitAll_some hsplit, splitAll_none h2]

theorem dictInsert_notMem {m : Headers} {k : Str} (v : Str) (h : k ∉ m.map Prod.fst) :
    dictInsert m k v = m ++ [(k, v)] := by
  induction m with
  | nil => rfl
  | cons kv rest ih =>
    obtain ⟨k', v'⟩ := kv
    simp only [List.map_cons, List.mem_cons, not_or] at h
    rw [dictInsert, if_neg (fun hh => h.1 hh.symm), ih h.2]
    rfl

theorem parseHeaders_render : ∀ (hs acc : Headers),
    (∀ kv ∈ hs, headerOk kv) → ((acc ++ hs).map Prod.fst).Nodup →
    parseHeaders (hs.map renderHeader) acc = some (acc ++ hs) := by
  intro hs
  induction hs with
  | nil => intro acc _ _; simp [parseHeaders]
  | cons kv rest ih =>
    intro acc hok hnd
    rw [List.map_cons, parseHeaders, parseHeaderLine_render (hok kv (by simp))]
    show parseHeaders (List.map renderHeader rest) (dictInsert acc kv.1 kv.2) = _
    have hk : kv.1 ∉ acc.map Prod.fst := by
      simp only [List.map_append, List.nodup_append] at hnd
      intro hmem
      exact hnd.2.2 hmem (by simp)
    rw [dictInsert_notMem kv.2 hk]
    have hrec := ih (acc ++ [kv]) (fun x hx => hok x (List.mem_cons_of_mem kv hx))
      (by simpa using hnd)
    rw [hrec]
    simp

/-! ### Splitting the request and status lines -/

theorem splitAll_spc3 {m u v : Str} (hm : ' ' ∉ m) (hu : ' ' ∉ u) (hv : ' ' ∉ v) :
    splitAll spc (m ++ spc ++ u ++ spc ++ v) = [m, u, v] := by
  have h1 : splitOnce spc (m ++ (spc ++ (u ++ (spc ++ v)))) = some (m, u ++ (spc ++ v)) := by
    rw [splitOnce_append_left hm, splitOnce_self_append]
    simp
  have h2 : splitOnce spc (u ++ (spc ++ v)) = some (u, v) := by
    rw [splitOnce_append_left hu, splitOnce_self_append]
    simp
  have h3 : splitOnce spc v = none := splitOnce_head_notMem hv
  rw [show m ++ spc ++ u ++ spc ++ v = m ++ (spc ++ (u ++ (spc ++ v))) by
    simp [List.append_assoc]]
  rw [splitAll_some h1, splitAll_some h2, splitAll_none h3]

theorem splitOnce_spc2 {a b c : Str} (ha : ' ' ∉ a) (hb : ' ' ∉ b) :
    splitOnce spc (a ++ spc ++ (b ++ spc ++ c)) = some (a, b ++ spc ++ c) ∧
      splitOnce spc (b ++ spc ++ c) = some (b, c) := by
  constructor
  · rw [List.append_assoc, splitOnce_append_left ha, splitOnce_self_append]
    simp
  · rw [List.append_assoc, splitOnce_append_left hb, splitOnce_self_append]
    simp

/-! ### Enum token facts -/

theorem methodStr_facts : ∀ m : HttpMethod,
    ' ' ∉ methodStr m ∧ '\r' ∉ methodStr m ∧ methodStr m ≠ [] := by decide

theorem versionStr_facts : ∀ v : HttpVersion,
    ' ' ∉ versionStr v ∧ '\r' ∉ versionStr v ∧ versionStr v ≠ [] := by decide

theorem methodFromStr_methodStr : ∀ m : HttpMethod, methodFromStr (methodStr m) = m := by
  decide

theorem versionFromStr_versionStr : ∀ v : HttpVersion, versionFromStr (versionStr v) = v := by
  decide

theorem statusStr_facts : ∀ c : HttpStatusCode,
    ' ' ∉ natToStr c.val ∧ '\r' ∉ natToStr c.val ∧ '\r' ∉ reasonOf c ∧
      parseNat (natToStr c.val) = some c.val ∧ statusFromNat c.val = some c := by decide

/-! ### Decomposing `to_raw` into head lines and body -/

theorem request_to_raw_decomp (r : HttpRequest) :
    r.to_raw = joinSep crlf (reqLine r :: r.headers.map renderHeader) ++ crlf2 ++ r.body := by
  cases hh : r.headers with
  | nil =>
    simp [HttpRequest.to_raw, buildHeaders, joinSep, reqLine, hh, List.append_assoc]
  | cons kv rest =>
    simp [HttpRequest.to_raw, buildHeaders, joinSep, reqLine, hh, List.append_assoc]

theorem response_to_raw_decomp (r : HttpResponse) :
    r.to_raw = joinSep crlf (statusLine r :: r.headers.map renderHeader) ++ crlf2 ++ r.data := by
  cases hh : r.headers with
  | nil =>
    simp [HttpResponse.to_raw, buildHeaders, joinSep, statusLine, hh, List.append_assoc]
  | cons kv rest =>
    simp [HttpResponse.to_raw, buildHeaders, joinSep, statusLine, hh, List.append_assoc]

theorem reqLine_ok (r : HttpRequest) (hu : urlOk r.url) :
    reqLine r ≠ [] ∧ '\r' ∉ reqLine r := by
  obtain ⟨hm1, hm2, hm3⟩ := methodStr_facts r.method
  obtain ⟨hv1, hv2, hv3⟩ := versionStr_facts r.version
  constructor
  · simp [reqLine, hm3]
  · simp only [reqLine, List.mem_append, not_or]
    refine ⟨⟨⟨⟨hm2, ?_⟩, hu.2⟩, ?_⟩, hv2⟩ <;> simp

theorem statusLine_ok (r : HttpResponse) : statusLine r ≠ [] ∧ '\r' ∉ statusLine r := by
  obtain ⟨hv1, hv2, hv3⟩ := versionStr_facts r.version
  obtain ⟨hc1, hc2, hc3, _, _⟩ := statusStr_facts r.status
  constructor
  · simp [statusLine, hv3]
  · simp only [statusLine, List.mem_append, not_or]
    refine ⟨⟨⟨⟨hv2, ?_⟩, hc2⟩, ?_⟩, hc3⟩ <;> simp

theorem renderHeader_ok {kv : Str × Str} (h : headerOk kv) :
    renderHeader kv ≠ [] ∧ '\r' ∉ renderHeader kv := by
  obtain ⟨h1, h2, h3, h4⟩ := h
  constructor
  · simp [renderHeader]
  · simp only [renderHeader, List.mem_append, not_or]
    refine ⟨⟨h2, ?_⟩, h3⟩
    simp

/-! ### Round-trip of encoding followed by decoding -/

theorem request_roundtrip (r : HttpRequest) (hu : urlOk r.url)
    (hh : ∀ kv ∈ r.headers, headerOk kv) (hn : (r.headers.map Prod.fst).Nodup) :
    http_request_from_raw r.to_raw = some r := by
  obtain ⟨huspc, hucr⟩ := hu
  obtain ⟨hm1, hm2, hm3⟩ := methodStr_facts r.method
  obtain ⟨hv1, hv2, hv3⟩ := versionStr_facts r.version
  have hLprop : ∀ L ∈ reqLine r :: r.headers.map renderHeader, L ≠ [] ∧ '\r' ∉ L := by
    intro L hL
    rcases List.mem_cons.mp hL with h | h
    · subst h; exact reqLine_ok r ⟨huspc, hucr⟩
    · obtain ⟨kv, hkv, hkvL⟩ := List.mem_map.mp h
      subst hkvL
      exact renderHeader_ok (hh kv hkv)
  have hsplit1 : splitOnce crlf2 r.to_raw =
      some (joinSep crlf (reqLine r :: r.headers.map renderHeader), r.body) := by
    rw [request_to_raw_decomp]
    exact splitOnce_crlf2_head r.body (by simp) hLprop
  have hsplit2 : splitAll crlf (joinSep crlf (reqLine r :: r.headers.map renderHeader)) =
      reqLine r :: r.headers.map renderHeader :=
    splitAll_joinSep (fun L hL => (hLprop L hL).2) (by simp)
  have hline0 : splitAll spc (reqLine r) = [methodStr r.method, r.url, versionStr r.version] :=
    splitAll_spc3 hm1 huspc hv1
  have hhdrs : parseHeaders (r.headers.map renderHeader) [] = some r.headers := by
    have := parseHeaders_render r.headers [] hh (by simpa using hn)
    simpa using this
  rw [http_request_from_raw, hsplit1]
  show (match splitAll crlf (joinSep crlf (reqLine r :: r.headers.map renderHeader)) with
    | [] => none
    | line0 :: header_lines =>
      match splitAll spc line0 with
      | [method_str, url, version_str] =>
        match parseHeaders header_lines [] with
        | none => none
        | some headers =>
          some ⟨methodFromStr method_str, url, versionFromStr version_str, headers, r.body⟩
      | _ => none) = some r
  rw [hsplit2]
  show (match splitAll spc (reqLine r) with
    | [method_str, url, version_str] =>
      match parseHeaders (r.headers.map renderHeader) [] with
      | none => none
      | some headers =>
        some ⟨methodFromStr method_str, url, versionFromStr version_str, headers, r.body⟩
    | _ => none) = some r
  rw [hline0]
  show (match parseHeaders (r.headers.map renderHeader) [] with
    | none => none
    | some headers =>
      some ⟨methodFromStr (methodStr r.method), r.url, versionFromStr (versionStr r.version),
        headers, r.body⟩) = some r
  rw [hhdrs]
  show some ⟨methodFromStr (methodStr r.method), r.url, versionFromStr (versionStr r.version),
    r.headers, r.body⟩ = some r
  rw [methodFromStr_methodStr, versionFromStr_versionStr]

theorem response_roundtrip (r : HttpResponse)
    (hh : ∀ kv ∈ r.headers, headerOk kv) (hn : (r.headers.map Prod.fst).Nodup) :
    http_response_from_raw r.to_raw = some r := by
  obtain ⟨hv1, hv2, hv3⟩ := versionStr_facts r.version
  obtain ⟨hc1, hc2, hc3, hc4, hc5⟩ := statusStr_facts r.status
  have hLprop : ∀ L ∈ statusLine r :: r.headers.map renderHeader, L ≠ [] ∧ '\r' ∉ L := by
    intro L hL
    rcases List.mem_cons.mp hL with h | h
    · subst h; exact statusLine_ok r
    · obtain ⟨kv, hkv, hkvL⟩ := List.mem_map.mp h
      subst hkvL
      exact renderHeader_ok (hh kv hkv)
  have hsplit1 : splitOnce crlf2 r.to_raw =
      some (joinSep crlf (statusLine r :: r.headers.map renderHeader), r.data) := by
    rw [response_to_raw_decomp]
    exact splitOnce_crlf2_head r.data (by simp) hLprop
  have hsplit2 : splitAll crlf (joinSep crlf (statusLine r :: r.headers.map renderHeader)) =
      statusLine r :: r.headers.map renderHeader :=
    splitAll_joinSep (fun L hL => (hLprop L hL).2) (by simp)
  have hline := splitOnce_spc2 (a := versionStr r.version) (b := natToStr r.status.val)
    (c := reasonOf r.status) hv1 hc1
  have hhdrs : parseHeaders (r.headers.map renderHeader) [] = some r.headers := by
    have := parseHeaders_render r.headers [] hh (by simpa using hn)
    simpa using this
  rw [http_response_from_raw, hsplit1]
  show (match splitAll crlf (joinSep crlf (statusLine r :: r.headers.map renderHeader)) with
    | [] => none
    | line0 :: header_lines =>
      match splitOnce spc line0 with
      | none => none
      | some (version_str, rest1) =>
        match splitOnce spc rest1 with
        | none => none
        | some (status_code_str, _reason) =>
          match parseHeaders header_lines [] with
          | none => none
          | some headers =>
            match parseNat status_code_str with
            | none => none
            | some n =>
              match statusFromNat n with
              | none => none
              | some status => some ⟨versionFromStr version_str, status, headers, r.data⟩) =
      some r
  rw [hsplit2]
  show (match splitOnce spc (statusLine r) with
    | none => none
    | some (version_str, rest1) =>
      match splitOnce spc rest1 with
      | none => none
      | some (status_code_str, _reason) =>
        match parseHeaders (r.headers.map renderHeader) [] with
        | none => none
        | some headers =>
          match parseNat status_code_str with
          | none => none
          | some n =>
            match statusFromNat n with
            | none => none
            | some status => some ⟨versionFromStr version_str, status, headers, r.data⟩) =
      some r
  rw [show statusLine r = versionStr r.version ++ spc ++
    (natToStr r.status.val ++ spc ++ reasonOf r.status) from by
      simp [statusLine, List.append_assoc]]
  rw [hline.1]
  show (match splitOnce spc (natToStr r.status.val ++ spc ++ reasonOf r.status) with
    | none => none
    | some (status_code_str, _reason) =>
      match parseHeaders (r.headers.map renderHeader) [] with
      | none => none
      | some headers =>
        match parseNat status_code_str with
        | none => none
        | some n =>
          match statusFromNat n with
          | none => none
          | some status =>
            some ⟨versionFromStr (versionStr r.version), status, headers, r.data⟩) = some r
  rw [hline.2]
  show (match parseHeaders (r.headers.map renderHeader) [] with
    | none => none
    | some headers =>
      match parseNat (natToStr r.status.val) with
      | none => none
      | some n =>
        match statusFromNat n with
        | none => none
        | some status =>
          some ⟨versionFromStr (versionStr r.version), status, headers, r.data⟩) = some r
  rw [hhdrs]
  show (match parseNat (natToStr r.status.val) with
    | none => none
    | some n =>
      match statusFromNat n with
      | none => none
      | some status =>
        some ⟨versionFromStr (versionStr r.version), status, r.headers, r.data⟩) = some r
  rw [hc4]
  show (match statusFromNat r.status.val with
    | none => none
    | some status =>
      some ⟨versionFromStr (versionStr r.version), status, r.headers, r.data⟩) = some r
  rw [hc5]
  show some ⟨versionFromStr (versionStr r.version), r.status, r.headers, r.data⟩ = some r
  rw [versionFromStr_versionStr]

/-! ### Header lines containing more than one `": "` -/

theorem dropAppend (a : Str) (b : Str) (k : Nat) :
    (a ++ b).drop (a.length + k) = b.drop k := by
  induction a with
  | nil => simp
  | cons c a' ih =>
    show (c :: (a' ++ b)).drop (a'.length + 1 + k) = b.drop k
    rw [show a'.length + 1 + k = (a'.length + k) + 1 from by omega]
    rw [List.drop_succ_cons]
    exact ih

theorem containsB_of_suffix_add {sep r mid : Str} (hmid : containsB sep mid = true)
    (n : Nat) (hdrop : r.drop n = mid) : containsB sep r = true := by
  have : r = r.take n ++ mid := by rw [← hdrop, List.take_append_drop]
  rw [this]
  exact containsB_append_right hmid _

theorem splitAll_length_ge_three {c : Char} {ps : Str} :
    ∀ (pre mid : Str), containsB (c :: ps) mid = true →
      3 ≤ (splitAll (c :: ps) (pre ++ (c :: ps) ++ mid)).length := by
  intro pre
  induction pre with
  | nil =>
    intro mid hmid
    have h1 : splitOnce (c :: ps) ([] ++ (c :: ps) ++ mid) = some ([], mid) := by
      simpa using splitOnce_self_append c ps mid
    have h2 : (splitOnce (c :: ps) mid).isSome = true := by
      rw [splitOnce_isSome_eq_containsB]; exact hmid
    obtain ⟨p, h3⟩ := Option.isSome_iff_exists.mp h2
    obtain ⟨a, b⟩ := p
    rw [splitAll_some h1, splitAll_some h3]
    have := splitAll_length_pos (c :: ps) b
    simp only [List.length_cons]
    omega
  | cons d pre' ih =>
    intro mid hmid
    have hshape : (d :: pre') ++ (c :: ps) ++ mid = d :: (pre' ++ (c :: ps) ++ mid) := by
      simp
    cases hd : stripLead (c :: ps) (d :: (pre' ++ (c :: ps) ++ mid)) with
    | some r =>
      have hline : d :: (pre' ++ (c :: ps) ++ mid) = (c :: ps) ++ r := stripLead_eq_some.mp hd
      have h1 : splitOnce (c :: ps) (d :: (pre' ++ (c :: ps) ++ mid)) = some ([], r) := by
        rw [splitOnce_cons_eq, hd]
      -- `mid` is a suffix of `r`, so `r` still contains the separator
      have hdropEq : r.drop (pre'.length + 1) = mid := by
        have hcongr := congrArg (List.drop ((d :: pre').length + (c :: ps).length)) hline
        rw [show (d :: pre') ++ (c :: ps) ++ mid = (d :: pre') ++ ((c :: ps) ++ mid) from by
          simp] at hshape
        have hl : ((d :: pre') ++ ((c :: ps) ++ mid)).drop ((d :: pre').length + (c :: ps).length)
            = mid := by
          rw [dropAppend, show (c :: ps).length = (c :: ps).length + 0 from by omega, dropAppend]
          simp
        have hr : ((c :: ps) ++ r).drop ((d :: pre').length + (c :: ps).length) = r.drop
            (pre'.length + 1) := by
          rw [show (d :: pre').length + (c :: ps).length = (c :: ps).length + (pre'.length + 1)
            from by simp [List.length_cons]; omega]
          rw [dropAppend]
        rw [← hshape] at hcongr
        rw [hl, hr] at hcongr
        exact hcongr.symm
      have hr : containsB (c :: ps) r = true :=
        containsB_of_suffix_add hmid (pre'.length + 1) hdropEq
      have h2 : (splitOnce (c :: ps) r).isSome = true := by
        rw [splitOnce_isSome_eq_containsB]; exact hr
      obtain ⟨p, h3⟩ := Option.isSome_iff_exists.mp h2
      obtain ⟨a, b⟩ := p
      rw [hshape, splitAll_some h1, splitAll_some h3]
      have := splitAll_length_pos (c :: ps) b
      simp only [List.length_cons]
      omega
    | none =>
      have hinner : containsB (c :: ps) (pre' ++ (c :: ps) ++ mid) = true := by
        apply containsB_iff_exists.mpr
        exact ⟨pre', mid, rfl⟩
      have h2 : (splitOnce (c :: ps) (pre' ++ (c :: ps) ++ mid)).isSome = true := by
        rw [splitOnce_isSome_eq_containsB]; exact hinner
      obtain ⟨p, h3⟩ := Option.isSome_iff_exists.mp h2
      obtain ⟨a, b⟩ := p
      have h1 : splitOnce (c :: ps) (d :: (pre' ++ (c :: ps) ++ mid)) = some (d :: a, b) := by
        rw [splitOnce_cons_eq, hd, h3]
      have hih := ih mid hmid
      rw [splitAll_some h3] at hih
      rw [hshape, splitAll_some h1]
      simp only [List.length_cons] at hih ⊢
      omega

theorem parseHeaderLine_eq_none {line : Str} (h : 3 ≤ (splitAll colonSp line).length) :
    parseHeaderLine line = none := by
  unfold parseHeaderLine
  cases hs : splitAll colonSp line with
  | nil => rfl
  | cons x xs =>
    cases xs with
    | nil => rfl
    | cons y ys =>
      cases ys with
      | nil => rw [hs] at h; simp at h
      | cons z zs => rfl

theorem parseHeaders_none_of_mem {lines : List Str} {line : Str} (hmem : line ∈ lines)
    (hbad : parseHeaderLine line = none) : ∀ acc, parseHeaders lines acc = none := by
  induction lines with
  | nil => simp at hmem
  | cons l rest ih =>
    intro acc
    rcases List.mem_cons.mp hmem with h | h
    · subst h
      rw [parseHeaders, hbad]
    · cases hl : parseHeaderLine l with
      | none => rw [parseHeaders, hl]
      | some kv =>
        rw [parseHeaders, hl]
        exact ih h _

theorem parseHeaderLine_value {line : Str} {kv : Str × Str}
    (h : parseHeaderLine line = some kv) : containsB colonSp kv.2 = false := by
  unfold parseHeaderLine at h
  cases h1 : splitOnce colonSp line with
  | none => rw [splitAll_none h1] at h; simp at h
  | some p =>
    obtain ⟨a, b⟩ := p
    rw [splitAll_some h1] at h
    cases h2 : splitOnce colonSp b with
    | none =>
      rw [splitAll_none h2] at h
      simp at h
      rw [← h]
      exact (splitOnce_eq_none_iff b).mp h2
    | some q =>
      obtain ⟨x, y⟩ := q
      rw [splitAll_some h2] at h
      cases h3 : splitOnce colonSp y with
      | none => rw [splitAll_none h3] at h; simp at h
      | some w =>
        obtain ⟨u, w'⟩ := w
        rw [splitAll_some h3] at h
        simp at h

theorem dictInsert_mem {m : Headers} {k v : Str} {p : Str × Str} (h : p ∈ dictInsert m k v) :
    p ∈ m ∨ p = (k, v) := by
  induction m with
  | nil =>
    rw [dictInsert] at h
    right
    simpa using h
  | cons kv' rest ih =>
    obtain ⟨k', v'⟩ := kv'
    rw [dictInsert] at h
    by_cases hk : k' = k
    · rw [if_pos hk] at h
      rcases List.mem_cons.mp h with h1 | h1
      · right; exact h1
      · left; exact List.mem_cons_of_mem _ h1
    · rw [if_neg hk] at h
      rcases List.mem_cons.mp h with h1 | h1
      · left; exact h1 ▸ List.mem_cons_self _ _
      · rcases ih h1 with h2 | h2
        · left; exact List.mem_cons_of_mem _ h2
        · right; exact h2

theorem parseHeaders_values : ∀ (lines : List Str) (acc m : Headers),
    (∀ kv ∈ acc, containsB colonSp kv.2 = false) →
    parseHeaders lines acc = some m → ∀ kv ∈ m, containsB colonSp kv.2 = false := by
  intro lines
  induction lines with
  | nil =>
    intro acc m hacc h
    rw [parseHeaders] at h
    cases h
    exact hacc
  | cons l rest ih =>
    intro acc m hacc h
    cases hl : parseHeaderLine l with
    | none => rw [parseHeaders, hl] at h; cases h
    | some kv =>
      rw [parseHeaders, hl] at h
      refine ih _ m ?_ h
      intro kv' hkv'
      rcases dictInsert_mem hkv' with h1 | h1
      · exact hacc kv' h1
      · rw [h1]
        exact parseHeaderLine_value hl

/-! ### Content store facts -/

theorem retrieve_setContent {st : Store} {path : Str} (content : Str)
    (h : (Store.retrieve st path).isSome = true) :
    Store.retrieve (Store.setContent st path content) path = some content := by
  induction st with
  | nil => simp [Store.retrieve] at h
  | cons pc rest ih =>
    obtain ⟨p, c⟩ := pc
    by_cases hp : p = path
    · simp [Store.setContent, Store.retrieve, hp]
    · rw [Store.retrieve, if_neg hp] at h
      rw [Store.setContent, if_neg hp, Store.retrieve, if_neg hp]
      exact ih h

/-! ### Claim theorems -/

/-- C1, counterexample: the round-trip `decode(encode(r)) = r` fails for a
request with supported method and version whose header value contains `": "`
(`{"A": "b: c"}`): the encoded text decodes to `none` (a `ValueError` in the
source), so the claim as stated is false. -/
theorem c1_roundtrip_counterexample :
    (HttpRequest.mk .GET "/".toList .HTTP_1_1 [("A".toList, "b: c".toList)] []).method ≠
        HttpMethod.UNSUPPORTED ∧
      (HttpRequest.mk .GET "/".toList .HTTP_1_1 [("A".toList, "b: c".toList)] []).version ≠
        HttpVersion.UNSUPPORTED ∧
      http_request_from_raw
          (HttpRequest.mk .GET "/".toList .HTTP_1_1 [("A".toList, "b: c".toList)] []).to_raw ≠
        some (HttpRequest.mk .GET "/".toList .HTTP_1_1 [("A".toList, "b: c".toList)] []) := by
  decide

/-- C1 (amended): `decode(encode(x)) = x`, with exact equality including
header order, for every request with supported method and version and every
response with supported version, provided the url contains no space or CR,
every header key contains no colon and no CR, every header value contains no
CR and no `": "`, and header keys are distinct. -/
theorem c1_roundtrip :
    (∀ r : HttpRequest, r.method ≠ HttpMethod.UNSUPPORTED →
      r.version ≠ HttpVersion.UNSUPPORTED → urlOk r.url → (∀ kv ∈ r.headers, headerOk kv) →
      (r.headers.map Prod.fst).Nodup → http_request_from_raw r.to_raw = some r) ∧
    (∀ s : HttpResponse, s.version ≠ HttpVersion.UNSUPPORTED →
      (∀ kv ∈ s.headers, headerOk kv) → (s.headers.map Prod.fst).Nodup →
      http_response_from_raw s.to_raw = some s) := by
  constructor
  · intro r _ _ hu hh hn
    exact request_roundtrip r hu hh hn
  · intro s _ hh hn
    exact response_roundtrip s hh hn

/-- Witness for C1: the round-trip at one concrete request and one concrete
response. -/
theorem c1_roundtrip_witness :
    http_request_from_raw (HttpRequest.mk .GET "/a.txt".toList .HTTP_1_1
        [("Host".toList, "x".toList)] []).to_raw =
      some (HttpRequest.mk .GET "/a.txt".toList .HTTP_1_1 [("Host".toList, "x".toList)] []) ∧
    http_response_from_raw (HttpResponse.mk .HTTP_1_1 .OK
        [("Content-Type".toList, "text/html".toList)] "hi".toList).to_raw =
      some (HttpResponse.mk .HTTP_1_1 .OK
        [("Content-Type".toList, "text/html".toList)] "hi".toList) :=
  ⟨c1_roundtrip.1 _ (by decide) (by decide) (by decide) (by decide) (by decide),
   c1_roundtrip.2 _ (by decide) (by decide) (by decide)⟩

/-- C2, counterexample: the proxy does not forward byte-identical data.  A
client request with the unknown method token `FOO` decodes successfully (to
the `UNSUPPORTED` sentinel) and is forwarded re-encoded as `UNSUPPORTED ...`,
and an upstream response with a non-canonical reason phrase is relayed with
the canonical phrase instead. -/
theorem c2_proxy_counterexample :
    proxyForward "FOO / HTTP/1.1\r\n\r\n".toList =
        some "UNSUPPORTED / HTTP/1.1\r\n\r\n".toList ∧
      "UNSUPPORTED / HTTP/1.1\r\n\r\n".toList ≠ "FOO / HTTP/1.1\r\n\r\n".toList ∧
      proxyRelay "HTTP/1.1 200 Okey\r\n\r\n".toList = some "HTTP/1.1 200 OK\r\n\r\n".toList ∧
      "HTTP/1.1 200 OK\r\n\r\n".toList ≠ "HTTP/1.1 200 Okey\r\n\r\n".toList := by
  decide

/-- C2 (amended): the proxy forwards the re-encoding of the decoded client
request and relays the re-encoding of the decoded upstream response, which
are byte-identical to the original bytes whenever those bytes are canonical
encodings of well-formed messages; in particular the spec's concrete
scenario `GET /x HTTP/1.1\r\n\r\n` is forwarded byte-identically. -/
theorem c2_proxy_canonical :
    (∀ r : HttpRequest, urlOk r.url → (∀ kv ∈ r.headers, headerOk kv) →
      (r.headers.map Prod.fst).Nodup → proxyForward r.to_raw = some r.to_raw) ∧
    (∀ s : HttpResponse, (∀ kv ∈ s.headers, headerOk kv) → (s.headers.map Prod.fst).Nodup →
      proxyRelay s.to_raw = some s.to_raw) ∧
    proxyForward "GET /x HTTP/1.1\r\n\r\n".toList = some "GET /x HTTP/1.1\r\n\r\n".toList := by
  refine ⟨?_, ?_, by decide⟩
  · intro r hu hh hn
    unfold proxyForward
    rw [request_roundtrip r hu hh hn]
    rfl
  · intro s hh hn
    unfold proxyRelay
    rw [response_roundtrip s hh hn]
    rfl

/-- Witness for C2: forwarding of a concrete canonical request. -/
theorem c2_proxy_canonical_witness :
    proxyForward (HttpRequest.mk .GET "/x".toList .HTTP_1_1 [] []).to_raw =
      some (HttpRequest.mk .GET "/x".toList .HTTP_1_1 [] []).to_raw :=
  c2_proxy_canonical.1 _ (by decide) (by decide) (by decide)

/-- C3: evaluation at the failing input.  When the received text has no
`"\r\n\r\n"` (here `"hello"`), decoding raises, the exception escapes
`handle()`, and the connection is never closed — `handle` does not reach the
`Closed` state on the decode-failure path, contradicting the claim. The
timeout path, by contrast, closes exactly once. -/
theorem c3_decode_failure_skips_close :
    handleRun (some "hello".toList) [] = ([], [], some HFailure.decodeError) ∧
      (handleRun (some "hello".toList) []).1.count HEvent.closed = 0 ∧
      (handleRun none []).1.count HEvent.closed = 1 := by
  decide

/-- C4: on a timeout (no readable data), the handler sends exactly the
canned Timeout response (status 408, shown with its exact bytes) and then
closes the connection, never dispatching. -/
theorem c4_timeout : ∀ st : Store,
    handleRun none st = ([HEvent.sent HttpResponses.TIMEOUT.to_raw, HEvent.closed], st, none) ∧
      HttpResponses.TIMEOUT.status = HttpStatusCode.REQUEST_TIMED_OUT ∧
      HttpStatusCode.REQUEST_TIMED_OUT.val = 408 ∧
      HttpResponses.TIMEOUT.to_raw =
        "HTTP/1.1 408 Request Timed Out\r\nContent-Length: 18\r\n\r\nREQUEST TIMED OUT.".toList := by
  intro st
  exact ⟨rfl, rfl, rfl, by decide⟩

/-- C5: a GET whose path is in the content store is answered with a `200 OK`
response whose `Content-Length` header is the length of the stored content
and whose body is that content; a GET on an absent path is answered with the
canned NotFound response.  The spec's concrete scenario (`GET /a.txt` against
a store holding `"hi"`) produces exactly the claimed bytes. -/
theorem c5_get :
    (∀ (st : Store) (url : Str) (hs : Headers) (body content : Str),
      Store.retrieve st url = some content →
      handleRequest (HttpRequest.mk .GET url .HTTP_1_1 hs body) st =
        .ok (HttpResponse.mk .HTTP_1_1 .OK [(clKey, natToStr content.length)] content, st)) ∧
    (∀ (st : Store) (url : Str) (hs : Headers) (body : Str),
      Store.retrieve st url = none →
      handleRequest (HttpRequest.mk .GET url .HTTP_1_1 hs body) st =
        .ok (HttpResponses.NOT_FOUND, st)) ∧
    handleRequest (HttpRequest.mk .GET "/a.txt".toList .HTTP_1_1
        [("Host".toList, "x".toList)] []) [("/a.txt".toList, "hi".toList)] =
      .ok (HttpResponse.mk .HTTP_1_1 .OK [(clKey, "2".toList)] "hi".toList,
        [("/a.txt".toList, "hi".toList)]) ∧
    (HttpResponse.mk .HTTP_1_1 .OK [(clKey, "2".toList)] "hi".toList).to_raw =
      "HTTP/1.1 200 OK\r\nContent-Length: 2\r\n\r\nhi".toList := by
  refine ⟨?_, ?_, by decide, by decide⟩
  · intro st url hs body content h
    simp [handleRequest, handleGetRequest, h]
  · intro st url hs body h
    simp [handleRequest, handleGetRequest, h]

/-- Witness for C5 at a concrete store. -/
theorem c5_get_witness :
    handleRequest (HttpRequest.mk .GET "/a.txt".toList .HTTP_1_1 [] [])
        [("/a.txt".toList, "hi".toList)] =
      .ok (HttpResponse.mk .HTTP_1_1 .OK
        [(clKey, natToStr ("hi".toList).length)] "hi".toList,
        [("/a.txt".toList, "hi".toList)]) :=
  c5_get.1 _ _ [] [] _ (by decide)

/-- C6: a PUT whose path is absent is answered with the canned NotFound
response and leaves the store unchanged (PUT never creates); a PUT whose path
exists replaces the stored content with the request body (a subsequent
retrieve yields the body) and is answered with the canned OK response. -/
theorem c6_put :
    (∀ (st : Store) (url : Str) (hs : Headers) (body : Str),
      Store.retrieve st url = none →
      handleRequest (HttpRequest.mk .PUT url .HTTP_1_1 hs body) st =
        .ok (HttpResponses.NOT_FOUND, st)) ∧
    (∀ (st : Store) (url : Str) (hs : Headers) (body content : Str),
      Store.retrieve st url = some content →
      handleRequest (HttpRequest.mk .PUT url .HTTP_1_1 hs body) st =
          .ok (HttpResponses.OK, Store.setContent st url body) ∧
        Store.retrieve (Store.setContent st url body) url = some body) := by
  constructor
  · intro st url hs body h
    simp [handleRequest, handlePutRequest, Store.replace, h]
  · intro st url hs body content h
    have hsome : (Store.retrieve st url).isSome = true := by rw [h]; rfl
    constructor
    · simp [handleRequest, handlePutRequest, Store.replace, hsome]
    · exact retrieve_setContent body hsome

/-- Witness for C6 at a concrete store. -/
theorem c6_put_witness :
    handleRequest (HttpRequest.mk .PUT "/a.txt".toList .HTTP_1_1 [] "new".toList)
        [("/a.txt".toList, "old".toList)] =
      .ok (HttpResponses.OK,
        Store.setContent [("/a.txt".toList, "old".toList)] "/a.txt".toList "new".toList) :=
  (c6_put.2 [("/a.txt".toList, "old".toList)] "/a.txt".toList [] "new".toList
    "old".toList (by decide)).1

/-- C7: the status-code-to-reason-phrase mapping is a bijection — the
name-indexed lookup `msgOfCode` is bijective and the induced code-to-phrase
map is injective — and the enum carries exactly the claimed numeric values
(including the source's `BAD_REQUEST = 300`). -/
theorem c7_status_bijection :
    Function.Bijective msgOfCode ∧
      Function.Injective (fun c : HttpStatusCode => (msgOfCode c).value) ∧
      HttpStatusCode.OK.val = 200 ∧ HttpStatusCode.NOT_MODIFIED.val = 304 ∧
      HttpStatusCode.BAD_REQUEST.val = 300 ∧ HttpStatusCode.NOT_FOUND.val = 404 ∧
      HttpStatusCode.METHOD_NOT_ALLOWED.val = 405 ∧
      HttpStatusCode.REQUEST_TIMED_OUT.val = 408 := by
  refine ⟨⟨?_, ?_⟩, ?_, rfl, rfl, rfl, rfl, rfl, rfl⟩ <;> decide

/-- Witness for C7: injectivity applied at a concrete pair. -/
theorem c7_status_bijection_witness : HttpStatusCode.OK = HttpStatusCode.OK :=
  c7_status_bijection.1.1 (rfl : msgOfCode .OK = msgOfCode .OK)

/-- C8: the dispatch switch and the per-branch method validation never
disagree: for every request the dispatcher returns normally (the
`InvalidHttpMethodError` raise is unreachable under dispatch), and any
request whose method is the `UNSUPPORTED` sentinel is answered with the
canned MethodNotAllowed response. -/
theorem c8_dispatch : ∀ (req : HttpRequest) (st : Store),
    exceptOk (handleRequest req st) = true ∧
      (req.method = HttpMethod.UNSUPPORTED →
        handleRequest req st = .ok (HttpResponses.METHOD_NOT_ALLOWED, st)) := by
  intro req st
  obtain ⟨mth, url, ver, hs, body⟩ := req
  cases mth with
  | GET =>
    refine ⟨?_, fun h => nomatch h⟩
    show exceptOk (handleGetRequest ⟨.GET, url, ver, hs, body⟩ st) = true
    unfold handleGetRequest
    rw [if_neg (fun h => h rfl)]
    cases Store.retrieve st url <;> rfl
  | PUT =>
    refine ⟨?_, fun h => nomatch h⟩
    show exceptOk (handlePutRequest ⟨.PUT, url, ver, hs, body⟩ st) = true
    unfold handlePutRequest
    rw [if_neg (fun h => h rfl)]
    cases hrep : Store.replace st url body with
    | mk st' bb => cases bb <;> rfl
  | POST =>
    refine ⟨?_, fun h => nomatch h⟩
    show exceptOk (handlePostRequest ⟨.POST, url, ver, hs, body⟩ st) = true
    unfold handlePostRequest
    rw [if_neg (fun h => h rfl)]
    cases hrep : Store.create st url body with
    | mk st' bb => cases bb <;> rfl
  | HEAD =>
    refine ⟨?_, fun h => nomatch h⟩
    show exceptOk (handleHeadRequest ⟨.HEAD, url, ver, hs, body⟩ st) = true
    unfold handleHeadRequest
    rw [if_neg (fun h => h rfl)]
    cases hex : Store.existsPath st url <;> simp [hex, exceptOk]
  | DELETE =>
    refine ⟨?_, fun h => nomatch h⟩
    show exceptOk (handleDeleteRequest ⟨.DELETE, url, ver, hs, body⟩ st) = true
    unfold handleDeleteRequest
    rw [if_neg (fun h => h rfl)]
    cases hrep : Store.delete st url with
    | mk st' bb => cases bb <;> rfl
  | UNSUPPORTED => exact ⟨rfl, fun _ => rfl⟩

/-- Witness for C8 at a concrete unsupported-method request. -/
theorem c8_dispatch_witness :
    handleRequest (HttpRequest.mk .UNSUPPORTED "/".toList .HTTP_1_1 [] []) [] =
      .ok (HttpResponses.METHOD_NOT_ALLOWED, []) :=
  (c8_dispatch (HttpRequest.mk .UNSUPPORTED "/".toList .HTTP_1_1 [] []) []).2 rfl

/-- C9: any input text that does not contain the separator `"\r\n\r\n"`
anywhere (including the empty string and a bare request or status line) is
rejected by both decoders. -/
theorem c9_no_separator : ∀ s : Str, ¬ ContainsSeq crlf2 s →
    http_request_from_raw s = none ∧ http_response_from_raw s = none := by
  intro s h
  have hb : containsB crlf2 s = false := by
    unfold ContainsSeq at h
    simpa using h
  have hnone : splitOnce crlf2 s = none := (splitOnce_eq_none_iff s).mpr hb
  constructor
  · unfold http_request_from_raw
    rw [hnone]
  · unfold http_response_from_raw
    rw [hnone]

/-- Witness for C9 at a bare request line with no separator. -/
theorem c9_no_separator_witness :
    http_request_from_raw "GET / HTTP/1.1".toList = none ∧
      http_response_from_raw "GET / HTTP/1.1".toList = none :=
  c9_no_separator _ (by decide)

/-- C10: a header line in the head section that contains `": "` more than
once (one occurrence followed by another in the remainder) makes both
decoders fail; consequently the decoders never produce a message whose
header value contains `": "`. -/
theorem c10_double_colon_space :
    (∀ (raw top rest line pre mid : Str),
      splitOnce crlf2 raw = some (top, rest) →
      line ∈ (splitAll crlf top).drop 1 →
      line = pre ++ colonSp ++ mid → ContainsSeq colonSp mid →
      http_request_from_raw raw = none ∧ http_response_from_raw raw = none) ∧
    (∀ (raw : Str) (req : HttpRequest), http_request_from_raw raw = some req →
      ∀ kv ∈ req.headers, ¬ ContainsSeq colonSp kv.2) ∧
    (∀ (raw : Str) (resp : HttpResponse), http_response_from_raw raw = some resp →
      ∀ kv ∈ resp.headers, ¬ ContainsSeq colonSp kv.2) := by
  refine ⟨?_, ?_, ?_⟩
  · intro raw top rest line pre mid hsplit hmem hline hmid
    have h3 : 3 ≤ (splitAll colonSp line).length := by
      rw [hline]
      exact splitAll_length_ge_three pre mid hmid
    have hbad : parseHeaderLine line = none := parseHeaderLine_eq_none h3
    cases hsa : splitAll crlf top with
    | nil =>
      rw [hsa] at hmem
      simp at hmem
    | cons l0 hls =>
      have hmem' : line ∈ hls := by
        rw [hsa] at hmem
        simpa using hmem
      have hnone : parseHeaders hls [] = none := parseHeaders_none_of_mem hmem' hbad []
      constructor
      · unfold http_request_from_raw
        simp only [hsplit, hsa]
        cases hsp : splitAll spc l0 with
        | nil => rfl
        | cons x xs =>
          cases xs with
          | nil => rfl
          | cons y ys =>
            cases ys with
            | nil => rfl
            | cons z zs =>
              cases zs with
              | nil => simp only [hnone]
              | cons w ws => rfl
      · unfold http_response_from_raw
        simp only [hsplit, hsa]
        cases hsp1 : splitOnce spc l0 with
        | none => rfl
        | some p1 =>
          obtain ⟨vstr, r1⟩ := p1
          simp only
          cases hsp2 : splitOnce spc r1 with
          | none => rfl
          | some p2 =>
            obtain ⟨cstr, rr⟩ := p2
            simp only [hnone]
  · intro raw req hreq kv hkv
    unfold http_request_from_raw at hreq
    cases h1 : splitOnce crlf2 raw with
    | none => simp only [h1] at hreq; exact Option.noConfusion hreq
    | some p =>
      obtain ⟨top, body⟩ := p
      simp only [h1] at hreq
      cases h2 : splitAll crlf top with
      | nil => simp only [h2] at hreq; exact Option.noConfusion hreq
      | cons l0 hls =>
        simp only [h2] at hreq
        cases h3 : splitAll spc l0 with
        | nil => simp only [h3] at hreq; exact Option.noConfusion hreq
        | cons x xs =>
          cases xs with
          | nil => simp only [h3] at hreq; exact Option.noConfusion hreq
          | cons y ys =>
            cases ys with
            | nil => simp only [h3] at hreq; exact Option.noConfusion hreq
            | cons z zs =>
              cases zs with
              | cons w ws => simp only [h3] at hreq; exact Option.noConfusion hreq
              | nil =>
                simp only [h3] at hreq
                cases h4 : parseHeaders hls [] with
                | none => simp only [h4] at hreq; exact Option.noConfusion hreq
                | some hdrs =>
                  simp only [h4, Option.some.injEq] at hreq
                  have hvals := parseHeaders_values hls [] hdrs (by simp) h4
                  subst hreq
                  intro hcon
                  unfold ContainsSeq at hcon
                  rw [hvals kv hkv] at hcon
                  cases hcon
  · intro raw resp hresp kv hkv
    unfold http_response_from_raw at hresp
    cases h1 : splitOnce crlf2 raw with
    | none => simp only [h1] at hresp; exact Option.noConfusion hresp
    | some p =>
      obtain ⟨top, body⟩ := p
      simp only [h1] at hresp
      cases h2 : splitAll crlf top with
      | nil => simp only [h2] at hresp; exact Option.noConfusion hresp
      | cons l0 hls =>
        simp only [h2] at hresp
        cases h3 : splitOnce spc l0 with
        | none => simp only [h3] at hresp; exact Option.noConfusion hresp
        | some p1 =>
          obtain ⟨vstr, r1⟩ := p1
          simp only [h3] at hresp
          cases h4 : splitOnce spc r1 with
          | none => simp only [h4] at hresp; exact Option.noConfusion hresp
          | some p2 =>
            obtain ⟨cstr, rr⟩ := p2
            simp only [h4] at hresp
            cases h5 : parseHeaders hls [] with
            | none => simp only [h5] at hresp; exact Option.noConfusion hresp
            | some hdrs =>
              simp only [h5] at hresp
              cases h6 : parseNat cstr with
              | none => simp only [h6] at hresp; exact Option.noConfusion hresp
              | some n =>
                simp only [h6] at hresp
                cases h7 : statusFromNat n with
                | none => simp only [h7] at hresp; exact Option.noConfusion hresp
                | some code =>
                  simp only [h7, Option.some.injEq] at hresp
                  have hvals := parseHeaders_values hls [] hdrs (by simp) h5
                  subst hresp
                  intro hcon
                  unfold ContainsSeq at hcon
                  rw [hvals kv hkv] at hcon
                  cases hcon

/-- Witness for C10 at a concrete request whose header value contains
`": "`. -/
theorem c10_double_colon_space_witness :
    http_request_from_raw "GET / HTTP/1.1\r\nA: b: c\r\n\r\n".toList = none :=
  (c10_double_colon_space.1 "GET / HTTP/1.1\r\nA: b: c\r\n\r\n".toList
    "GET / HTTP/1.1\r\nA: b: c".toList [] "A: b: c".toList "A".toList "b: c".toList
    (by decide) (by decide) (by decide) (by decide)).1
